import Mathlib

/-!
Shallow embedding of the goset library (package `goset`): `hash.go`,
`set.go`, `unsafe_set.go` and the thread-safe wrapper.

Modelling conventions:
* Go interface values (`interface{}` / `any`) are modelled by the inductive
  `GoVal`, one constructor per runtime type that the library's type switches
  distinguish.  Floating-point and complex payloads are not embeddable, so a
  float value is represented by its canonical `strconv.FormatFloat`
  encoding (and, for floats, additionally its `encoding/json` encoding);
  both encodings are deterministic functions of the underlying value.
* The Go map `map[string]any` is modelled by an association list
  `List (String × GoVal)`; `mapInsert` implements Go's `m[k] = v`
  (overwrite-or-append) and preserves key uniqueness.
* A Go `panic` is modelled by `Option`/an outcome value: `none` (or a
  non-`ok` `AddOutcome`) means the operation panicked; mutations of the
  receiver performed before the panic are retained, as in Go.
* Go map iteration order is unspecified; the list order is one admissible
  iteration order.  All order-independent statements below (key-set
  membership, cardinality, panics) are unaffected by this choice.
-/

deriving instance DecidableEq for Except

/-- Runtime value carried in an `interface{}` slot, one constructor per
dynamic type distinguished by the library's type switches.  `hashableV`
is a value of a user type implementing `Hashable` (type name, `Hash()`
result).  `jsonNumberV` is a `json.Number` (underlying type string, but a
distinct named type with no `Hash` method).  `boolV` and `otherV` are
values of types that are not in the hashable list. -/
inductive GoVal where
  | intV : Int → GoVal
  | int8V : Int → GoVal
  | int16V : Int → GoVal
  | int32V : Int → GoVal
  | int64V : Int → GoVal
  | uintV : Nat → GoVal
  | uint8V : Nat → GoVal
  | uint16V : Nat → GoVal
  | uint32V : Nat → GoVal
  | uint64V : Nat → GoVal
  | uintptrV : Nat → GoVal
  | float32V : String → String → GoVal
  | float64V : String → String → GoVal
  | complex64V : String → GoVal
  | complex128V : String → GoVal
  | strV : String → GoVal
  | hashableV : String → String → GoVal
  | boolV : Bool → GoVal
  | jsonNumberV : String → GoVal
  | otherV : String → GoVal
deriving DecidableEq

/-- Name of the dynamic type of a value, as `reflect.TypeOf(obj).String()`
would report it; two values have the same reflected type exactly when their
type names agree. -/
def valType : GoVal → String
  | .intV _ => "int"
  | .int8V _ => "int8"
  | .int16V _ => "int16"
  | .int32V _ => "int32"
  | .int64V _ => "int64"
  | .uintV _ => "uint"
  | .uint8V _ => "uint8"
  | .uint16V _ => "uint16"
  | .uint32V _ => "uint32"
  | .uint64V _ => "uint64"
  | .uintptrV _ => "uintptr"
  | .float32V _ _ => "float32"
  | .float64V _ _ => "float64"
  | .complex64V _ => "complex64"
  | .complex128V _ => "complex128"
  | .strV _ => "string"
  | .hashableV t _ => t
  | .boolV _ => "bool"
  | .jsonNumberV _ => "json.Number"
  | .otherV t => t

/-- Embeds `isHashableObj` (hash.go): the type switch
`case Hashable, int, int8, int16, int32, int64, uint, uint8, uint16,
uint32, uint64, uintptr, float32, float64, complex64, complex128, string`. -/
def isHashableObj : GoVal → Bool
  | .hashableV _ _ => true
  | .intV _ => true
  | .int8V _ => true
  | .int16V _ => true
  | .int32V _ => true
  | .int64V _ => true
  | .uintV _ => true
  | .uint8V _ => true
  | .uint16V _ => true
  | .uint32V _ => true
  | .uint64V _ => true
  | .uintptrV _ => true
  | .float32V _ _ => true
  | .float64V _ _ => true
  | .complex64V _ => true
  | .complex128V _ => true
  | .strV _ => true
  | _ => false

/-- Embeds `isNativeHashableObj` (hash.go): hashable but not via the
`Hashable` capability. -/
def isNativeHashableObj (obj : GoVal) : Bool :=
  if !isHashableObj obj then false
  else
    match obj with
    | .hashableV _ _ => false
    | _ => true

/-- Embeds `calcHash` (hash.go).  Note the inner type switch lists
`string, int, int8, int16, int32, int64, uint, uint16, uint32, uint64,
uintptr, float32, float64, complex64, complex128` — it has NO `uint8`
case, so a `uint8` value falls through to the `default` error branch,
exactly as in the source.  Integer cases use the decimal encoding of
`strconv.Itoa` / `FormatInt` / `FormatUint` (and `%v` for `uintptr`);
float and complex cases return the value's stored `FormatFloat` /
`FormatComplex` encoding. -/
def calcHash (obj : GoVal) : Except String String :=
  if !isHashableObj obj then
    .error "obj is not a hashable object, can't calculate its hash"
  else if !isNativeHashableObj obj then
    match obj with
    | .hashableV _ h => .ok h
    | o => .error (valType o ++ " does not implement Hashable")
  else
    match obj with
    | .strV s => .ok s
    | .intV n => .ok (toString n)
    | .int8V n => .ok (toString n)
    | .int16V n => .ok (toString n)
    | .int32V n => .ok (toString n)
    | .int64V n => .ok (toString n)
    | .uintV n => .ok (toString n)
    | .uint16V n => .ok (toString n)
    | .uint32V n => .ok (toString n)
    | .uint64V n => .ok (toString n)
    | .uintptrV n => .ok (toString n)
    | .float32V h _ => .ok h
    | .float64V h _ => .ok h
    | .complex64V h => .ok h
    | .complex128V h => .ok h
    | o => .error (valType o ++ " is not a hashable native object, but the ret of isNativeHashableObj seems be true")

/-- Backing state of a `ThreadUnsafeSet` (unsafe_set.go): the map
`dat : map[string]any` and the fixed element type `typ : reflect.Type`
(`none` models a nil `reflect.Type`). -/
structure ThreadUnsafeSet where
  dat : List (String × GoVal)
  typ : Option String
deriving DecidableEq

/-- Embeds `newThreadUnsafeSet` (unsafe_set.go). -/
def newThreadUnsafeSet : ThreadUnsafeSet := ⟨[], none⟩

/-- Go map assignment `m[k] = v`: overwrite the entry with key `k` if
present, otherwise add a new entry. -/
def mapInsert (k : String) (v : GoVal) (l : List (String × GoVal)) :
    List (String × GoVal) :=
  if l.any (fun kv => kv.1 == k) then
    l.map (fun kv => if kv.1 == k then (k, v) else kv)
  else l ++ [(k, v)]

/-- Outcome of `ThreadUnsafeSet.Add`: normal return, panic on the type
conflict check, or panic on a hash-computation error. -/
inductive AddOutcome where
  | ok : Bool → AddOutcome
  | typeConflict : AddOutcome
  | hashError : String → AddOutcome
deriving DecidableEq

/-- Embeds `ThreadUnsafeSet.Add` (unsafe_set.go ll. 33-51).  The source
first panics on a type conflict, then records the element type if the set
had none, then computes the hash (panicking on error — note the type was
already recorded at this point), then stores the entry and returns true.
The returned state retains all mutations made before a panic, as the Go
pointer receiver does. -/
def ThreadUnsafeSet.Add (s : ThreadUnsafeSet) (val : GoVal) :
    ThreadUnsafeSet × AddOutcome :=
  if s.typ ≠ none ∧ s.typ ≠ some (valType val) then (s, .typeConflict)
  else
    match calcHash val with
    | .error e =>
        (if s.typ = none then { s with typ := some (valType val) } else s,
         .hashError e)
    | .ok h =>
        ({ dat := mapInsert h val s.dat,
           typ := if s.typ = none then some (valType val) else s.typ },
         .ok true)

/-- Embeds `ThreadUnsafeSet.Cardinality` (`len(set.dat)`). -/
def ThreadUnsafeSet.Cardinality (s : ThreadUnsafeSet) : Nat := s.dat.length

/-- Embeds `ThreadUnsafeSet.Size` (delegates to `Cardinality`). -/
def ThreadUnsafeSet.Size (s : ThreadUnsafeSet) : Nat := s.Cardinality

/-- Embeds `ThreadUnsafeSet.Clear` (`*set = newThreadUnsafeSet()`). -/
def ThreadUnsafeSet.Clear (_ : ThreadUnsafeSet) : ThreadUnsafeSet :=
  newThreadUnsafeSet

/-- Key membership test on the backing map (`_, ok := set.dat[hash]`). -/
def ThreadUnsafeSet.hasKey (s : ThreadUnsafeSet) (k : String) : Bool :=
  s.dat.any (fun kv => kv.1 == k)

/-- Embeds `ThreadUnsafeSet.Contains` (unsafe_set.go ll. 75-86): loops
over the variadic arguments; a hash error or a missing key returns false,
reaching the end returns true. -/
def ThreadUnsafeSet.Contains (s : ThreadUnsafeSet) (vals : List GoVal) : Bool :=
  vals.all fun v =>
    match calcHash v with
    | .error _ => false
    | .ok h => s.hasKey h

/-- Values stored in the set, in the modelled iteration order
(`for _, obj := range set.dat`). -/
def ThreadUnsafeSet.values (s : ThreadUnsafeSet) : List GoVal :=
  s.dat.map Prod.snd

/-- Loop `for _, obj := range vals { s.Add(obj) }`, propagating a panic
from any `Add` (`none`); the partially built local set is then discarded
by the panicking Go operation. -/
def addAll : ThreadUnsafeSet → List GoVal → Option ThreadUnsafeSet
  | s, [] => some s
  | s, v :: rest =>
    match s.Add v with
    | (s', .ok _) => addAll s' rest
    | _ => none

/-- Embeds `ThreadUnsafeSet.Clone` (unsafe_set.go ll. 65-73): fresh map,
the receiver's `typ` copied first, then every stored value re-added. -/
def ThreadUnsafeSet.Clone (s : ThreadUnsafeSet) : Option ThreadUnsafeSet :=
  addAll ⟨[], s.typ⟩ s.values

/-- Embeds `ThreadUnsafeSet.Difference` (unsafe_set.go ll. 88-97): adds to
a fresh set every value of the receiver not contained in `o`. -/
def ThreadUnsafeSet.Difference (s o : ThreadUnsafeSet) : Option ThreadUnsafeSet :=
  addAll newThreadUnsafeSet (s.values.filter fun v => !(o.Contains [v]))

/-- Embeds `ThreadUnsafeSet.Equal` (unsafe_set.go ll. 99-110) faithfully,
including the source's inverted cardinality pre-check: when the sizes
differ the source returns `true` immediately. -/
def ThreadUnsafeSet.Equal (s o : ThreadUnsafeSet) : Bool :=
  if s.Size ≠ o.Size then true
  else s.values.all fun v => o.Contains [v]

/-- Embeds `ThreadUnsafeSet.Intersect` (unsafe_set.go ll. 112-130):
iterates the smaller operand and probes the other. -/
def ThreadUnsafeSet.Intersect (s o : ThreadUnsafeSet) : Option ThreadUnsafeSet :=
  if s.Size < o.Size then
    addAll newThreadUnsafeSet (s.values.filter fun v => o.Contains [v])
  else
    addAll newThreadUnsafeSet (o.values.filter fun v => s.Contains [v])

/-- Embeds `ThreadUnsafeSet.Remove` (unsafe_set.go ll. 193-199): computes
the hash (panicking on error, before any mutation) and deletes the entry. -/
def ThreadUnsafeSet.Remove (s : ThreadUnsafeSet) (v : GoVal) :
    Option ThreadUnsafeSet :=
  match calcHash v with
  | .error _ => none
  | .ok h => some { s with dat := s.dat.filter fun kv => kv.1 != h }

/-- Embeds `ThreadUnsafeSet.SymmetricDifference` (unsafe_set.go
ll. 216-230): values of the receiver not in `o`, then values of `o` not in
the receiver, added into one fresh set. -/
def ThreadUnsafeSet.SymmetricDifference (s o : ThreadUnsafeSet) :
    Option ThreadUnsafeSet :=
  match addAll newThreadUnsafeSet (s.values.filter fun v => !(o.Contains [v])) with
  | none => none
  | some d => addAll d (o.values.filter fun v => !(s.Contains [v]))

/-- Embeds `ThreadUnsafeSet.Union` (unsafe_set.go ll. 232-242). -/
def ThreadUnsafeSet.Union (s o : ThreadUnsafeSet) : Option ThreadUnsafeSet :=
  match addAll newThreadUnsafeSet s.values with
  | none => none
  | some u => addAll u o.values

/-- Embeds `ThreadUnsafeSet.Pop` (unsafe_set.go ll. 244-250): takes the
first entry of one admissible iteration order, deletes its key, and
returns its value; on an empty map, returns `(nil, false)` (here `none`)
with the set unchanged. -/
def ThreadUnsafeSet.Pop (s : ThreadUnsafeSet) : ThreadUnsafeSet × Option GoVal :=
  match s.dat with
  | [] => (s, none)
  | (h, v) :: _ => ({ s with dat := s.dat.filter fun kv => kv.1 != h }, some v)

/-- One element of a decoded JSON array, as `encoding/json` hands it to
`interface{}`-typed decoding: a number literal (kept textual), a string, a
boolean, or any other JSON shape (objects/arrays/null), summarized
opaquely — the library's claims never depend on the latter. -/
inductive JsonTok where
  | jnum : String → JsonTok
  | jstr : String → JsonTok
  | jbool : Bool → JsonTok
  | jother : String → JsonTok
deriving DecidableEq

/-- Per-element `json.Marshal`: integers marshal to their decimal numeral,
floats to their JSON number encoding (the value's second stored encoding),
strings to JSON strings, `json.Number` to its literal numeral, booleans to
JSON booleans; complex values are unsupported by `encoding/json` and
error; other values marshal to some JSON shape summarized opaquely. -/
def goJsonMarshal : GoVal → Except String JsonTok
  | .intV n => .ok (.jnum (toString n))
  | .int8V n => .ok (.jnum (toString n))
  | .int16V n => .ok (.jnum (toString n))
  | .int32V n => .ok (.jnum (toString n))
  | .int64V n => .ok (.jnum (toString n))
  | .uintV n => .ok (.jnum (toString n))
  | .uint8V n => .ok (.jnum (toString n))
  | .uint16V n => .ok (.jnum (toString n))
  | .uint32V n => .ok (.jnum (toString n))
  | .uint64V n => .ok (.jnum (toString n))
  | .uintptrV n => .ok (.jnum (toString n))
  | .float32V _ j => .ok (.jnum j)
  | .float64V _ j => .ok (.jnum j)
  | .complex64V _ => .error "json: unsupported type: complex64"
  | .complex128V _ => .error "json: unsupported type: complex128"
  | .strV s => .ok (.jstr s)
  | .hashableV t _ => .ok (.jother t)
  | .boolV b => .ok (.jbool b)
  | .jsonNumberV n => .ok (.jnum n)
  | .otherV t => .ok (.jother t)

/-- Embeds `ThreadUnsafeSet.MarshalJSON` (unsafe_set.go ll. 260-272):
marshals every stored value, propagating the first error; the result is
the JSON array of the per-element encodings (represented by the element
list — the byte-level bracket/comma formatting is not modelled). -/
def ThreadUnsafeSet.MarshalJSON (s : ThreadUnsafeSet) :
    Except String (List JsonTok) :=
  s.values.mapM goJsonMarshal

/-- Decoding of one array element into `interface{}` by a `json.Decoder`
with `UseNumber()` set (unsafe_set.go l. 278): a number literal decodes to
a `json.Number` (NOT to `string` or any integer type), a string to
`string`, a boolean to `bool`; other JSON shapes decode to compound values
of some non-primitive type. -/
def jsonDecodeElem : JsonTok → GoVal
  | .jnum n => .jsonNumberV n
  | .jstr s => .strV s
  | .jbool b => .boolV b
  | .jother t => .otherV ("decoded " ++ t)

/-- Embeds `ThreadUnsafeSet.UnmarshalJSON` (unsafe_set.go ll. 274-287)
applied to an input that parses as a JSON array (the byte-level parser is
not modelled; a parse failure is returned to the caller before any
mutation): every decoded element is added via `Add`, whose panic
propagates (`none`). -/
def ThreadUnsafeSet.UnmarshalJSON (s : ThreadUnsafeSet) (toks : List JsonTok) :
    Option ThreadUnsafeSet :=
  addAll s (toks.map jsonDecodeElem)

/-- State of a `ThreadSafeSet` (thread-safe wrapper file): the wrapped
unsafe set; the `sync.RWMutex` has no observable effect on the sequential
semantics modelled here. -/
structure ThreadSafeSet where
  unsafeSet : ThreadUnsafeSet
deriving DecidableEq

/-- Embeds `ThreadSafeSet.Equal`: delegates to the unsafe `Equal` under
read locks. -/
def ThreadSafeSet.Equal (s o : ThreadSafeSet) : Bool :=
  s.unsafeSet.Equal o.unsafeSet

/-- Embeds `ThreadSafeSet.Difference`: delegates to the unsafe
`Difference` and wraps the result. -/
def ThreadSafeSet.Difference (s o : ThreadSafeSet) : Option ThreadSafeSet :=
  match s.unsafeSet.Difference o.unsafeSet with
  | none => none
  | some d => some ⟨d⟩

/-- Embeds `ThreadSafeSet.SymmetricDifference` faithfully: the source body
calls `set.unsafeSet.Difference(&o.unsafeSet)` — the unsafe DIFFERENCE,
not the unsafe symmetric difference — and wraps that result. -/
def ThreadSafeSet.SymmetricDifference (s o : ThreadSafeSet) :
    Option ThreadSafeSet :=
  match s.unsafeSet.Difference o.unsafeSet with
  | none => none
  | some d => some ⟨d⟩

/-- Keys of the backing association list (the key set of the Go map). -/
def keysOf (l : List (String × GoVal)) : List String := l.map Prod.fst

/-- Hash coherence: every stored entry `(k, v)` has `calcHash v = ok k`. -/
abbrev HashCoherent (s : ThreadUnsafeSet) : Prop :=
  ∀ kv ∈ s.dat, calcHash kv.2 = Except.ok kv.1

/-- Well-formedness of a set state: unique keys (a Go map property), hash
coherence, and agreement of every stored value's type with the recorded
element type. -/
abbrev WF (s : ThreadUnsafeSet) : Prop :=
  (keysOf s.dat).Nodup ∧ HashCoherent s ∧
    ∀ kv ∈ s.dat, s.typ = some (valType kv.2)

/-- States reachable through the public operations.  A constructor call
`NewThreadUnsafeSet(vals...)` is the `empty` state followed by `add`
steps.  The `add` rule covers both a normal return and a panicking `Add`
(whose mutations to the receiver made before the panic are retained);
the remaining rules cover operations that completed normally — an
operation that panics discards its partially built local result. -/
inductive Reachable : ThreadUnsafeSet → Prop where
  | empty : Reachable newThreadUnsafeSet
  | add (s : ThreadUnsafeSet) (v : GoVal) :
      Reachable s → Reachable (s.Add v).1
  | remove (s : ThreadUnsafeSet) (v : GoVal) (s' : ThreadUnsafeSet) :
      Reachable s → s.Remove v = some s' → Reachable s'
  | clear (s : ThreadUnsafeSet) : Reachable s → Reachable s.Clear
  | pop (s : ThreadUnsafeSet) : Reachable s → Reachable (s.Pop).1
  | clone (s c : ThreadUnsafeSet) :
      Reachable s → s.Clone = some c → Reachable c
  | union (a b c : ThreadUnsafeSet) :
      Reachable a → Reachable b → a.Union b = some c → Reachable c
  | inter (a b c : ThreadUnsafeSet) :
      Reachable a → Reachable b → a.Intersect b = some c → Reachable c
  | diff (a b c : ThreadUnsafeSet) :
      Reachable a → Reachable b → a.Difference b = some c → Reachable c
  | symdiff (a b c : ThreadUnsafeSet) :
      Reachable a → Reachable b → a.SymmetricDifference b = some c → Reachable c
  | unmarshal (s : ThreadUnsafeSet) (toks : List JsonTok) (s' : ThreadUnsafeSet) :
      Reachable s → s.UnmarshalJSON toks = some s' → Reachable s'

theorem mem_keysOf (l : List (String × GoVal)) (k : String) :
    k ∈ keysOf l ↔ ∃ v, (k, v) ∈ l := by
  simp only [keysOf, List.mem_map]
  constructor
  · rintro ⟨⟨a, b⟩, h, rfl⟩
    exact ⟨b, h⟩
  · rintro ⟨v, h⟩
    exact ⟨(k, v), h, rfl⟩

theorem hasKey_iff_keysOf (s : ThreadUnsafeSet) (k : String) :
    s.hasKey k = true ↔ k ∈ keysOf s.dat := by
  simp [ThreadUnsafeSet.hasKey, keysOf, List.any_eq_true, List.mem_map,
    beq_iff_eq]

theorem keysOf_map_replace (h : String) (v : GoVal) (l : List (String × GoVal)) :
    keysOf (l.map fun kv => if kv.1 == h then (h, v) else kv) = keysOf l := by
  simp only [keysOf, List.map_map]
  apply List.map_congr_left
  intro kv _
  by_cases hk : kv.1 = h <;> simp [hk]

theorem mem_keysOf_mapInsert (h k : String) (v : GoVal) (l : List (String × GoVal)) :
    k ∈ keysOf (mapInsert h v l) ↔ k ∈ keysOf l ∨ k = h := by
  unfold mapInsert
  split
  case isTrue hp =>
    have hmem : h ∈ keysOf l := by
      rcases List.any_eq_true.mp hp with ⟨kv, hkv, he⟩
      rw [beq_iff_eq] at he
      exact he ▸ List.mem_map_of_mem Prod.fst hkv
    rw [keysOf_map_replace]
    constructor
    · exact Or.inl
    · rintro (hk | rfl)
      · exact hk
      · exact hmem
  case isFalse hp =>
    simp [keysOf]

theorem mem_mapInsert (h : String) (v : GoVal) (l : List (String × GoVal))
    (kv : String × GoVal) (hm : kv ∈ mapInsert h v l) :
    kv = (h, v) ∨ kv ∈ l := by
  unfold mapInsert at hm
  split at hm
  · rcases List.mem_map.mp hm with ⟨a, ha, rfl⟩
    by_cases hk : a.1 = h
    · left; simp [hk]
    · right; simpa [hk] using ha
  · rcases List.mem_append.mp hm with ha | ha
    · right; exact ha
    · left; simpa using ha

theorem length_mapInsert_present (h : String) (v : GoVal)
    (l : List (String × GoVal)) (hp : l.any (fun kv => kv.1 == h) = true) :
    (mapInsert h v l).length = l.length := by
  simp [mapInsert, hp]

theorem Add_eq_ok (s : ThreadUnsafeSet) (v : GoVal) (h : String)
    (hh : calcHash v = .ok h)
    (ht : s.typ = none ∨ s.typ = some (valType v)) :
    s.Add v = (⟨mapInsert h v s.dat, some (valType v)⟩, .ok true) := by
  unfold ThreadUnsafeSet.Add
  rcases ht with ht | ht <;> simp [ht, hh]

theorem Add_dat (s : ThreadUnsafeSet) (v : GoVal) :
    (s.Add v).1.dat = s.dat ∨
      ∃ h, calcHash v = .ok h ∧ (s.Add v).1.dat = mapInsert h v s.dat := by
  unfold ThreadUnsafeSet.Add
  split
  · left; rfl
  · rcases hcv : calcHash v with e | h
    · left
      simp only [hcv]
      split <;> rfl
    · right
      exact ⟨h, rfl, by simp [hcv]⟩

theorem Add_coherent (s : ThreadUnsafeSet) (v : GoVal)
    (hc : HashCoherent s) : HashCoherent (s.Add v).1 := by
  rcases Add_dat s v with hd | ⟨h, hh, hd⟩
  · intro kv hkv
    rw [hd] at hkv
    exact hc kv hkv
  · intro kv hkv
    rw [hd] at hkv
    rcases mem_mapInsert h v s.dat kv hkv with rfl | hm
    · exact hh
    · exact hc kv hm

theorem addAll_coherent (l : List GoVal) :
    ∀ s s' : ThreadUnsafeSet, HashCoherent s → addAll s l = some s' →
      HashCoherent s' := by
  induction l with
  | nil =>
    intro s s' hc h
    unfold addAll at h
    cases h
    exact hc
  | cons v rest ih =>
    intro s s' hc h
    unfold addAll at h
    rcases hA : s.Add v with ⟨s1, o⟩
    rw [hA] at h
    cases o with
    | ok b =>
      refine ih s1 s' ?_ h
      have := Add_coherent s v hc
      rwa [hA] at this
    | typeConflict => cases h
    | hashError e => cases h

theorem addAll_spec (l : List GoVal) :
    ∀ (s : ThreadUnsafeSet) (t : String),
    (∀ v ∈ l, valType v = t ∧ ∃ h, calcHash v = .ok h) →
    (s.typ = none ∨ s.typ = some t) →
    ∃ s', addAll s l = some s' ∧
      (∀ k, k ∈ keysOf s'.dat ↔
        (k ∈ keysOf s.dat ∨ ∃ v ∈ l, calcHash v = .ok k)) ∧
      (∀ kv ∈ s'.dat, kv ∈ s.dat ∨ (kv.2 ∈ l ∧ calcHash kv.2 = .ok kv.1)) := by
  induction l with
  | nil =>
    intro s t _ _
    refine ⟨s, rfl, by simp, ?_⟩
    intro kv h
    exact Or.inl h
  | cons v rest ih =>
    intro s t hl ht
    obtain ⟨hvt, h, hh⟩ := hl v (List.mem_cons_self v rest)
    have hAdd := Add_eq_ok s v h hh (by
      rcases ht with ht | ht
      · exact Or.inl ht
      · right; rw [ht, hvt])
    obtain ⟨s', hall, hkeys, hmem⟩ :=
      ih ⟨mapInsert h v s.dat, some (valType v)⟩ t
        (fun w hw => hl w (List.mem_cons_of_mem v hw))
        (by right; rw [hvt])
    have hstep : addAll s (v :: rest) =
        addAll ⟨mapInsert h v s.dat, some (valType v)⟩ rest := by
      simp only [addAll, hAdd]
    refine ⟨s', by rw [hstep]; exact hall, ?_, ?_⟩
    · intro k
      rw [hkeys k]
      show k ∈ keysOf (mapInsert h v s.dat) ∨ _ ↔ _
      rw [mem_keysOf_mapInsert]
      constructor
      · rintro ((hk | rfl) | ⟨w, hw, hwk⟩)
        · exact Or.inl hk
        · exact Or.inr ⟨v, List.mem_cons_self v rest, hh⟩
        · exact Or.inr ⟨w, List.mem_cons_of_mem v hw, hwk⟩
      · rintro (hk | ⟨w, hw, hwk⟩)
        · exact Or.inl (Or.inl hk)
        · rcases List.mem_cons.mp hw with rfl | hw2
          · rw [hh] at hwk
            injection hwk with hk2
            exact Or.inl (Or.inr hk2.symm)
          · exact Or.inr ⟨w, hw2, hwk⟩
    · intro kv hkv
      rcases hmem kv hkv with hm | ⟨hmv, hmc⟩
      · rcases mem_mapInsert h v s.dat kv hm with rfl | hm2
        · exact Or.inr ⟨List.mem_cons_self v rest, hh⟩
        · exact Or.inl hm2
      · exact Or.inr ⟨List.mem_cons_of_mem v hmv, hmc⟩

theorem WF_type (A : ThreadUnsafeSet) (hA : WF A) :
    ∃ t, (∀ v ∈ A.values, valType v = t) ∧ (A.typ = none ∨ A.typ = some t) := by
  rcases hty : A.typ with _ | t
  · refine ⟨"", ?_, Or.inl rfl⟩
    intro v hv
    rcases List.mem_map.mp hv with ⟨kv, hkv, rfl⟩
    have := hA.2.2 kv hkv
    rw [hty] at this
    cases this
  · refine ⟨t, ?_, Or.inr rfl⟩
    intro v hv
    rcases List.mem_map.mp hv with ⟨kv, hkv, rfl⟩
    have := hA.2.2 kv hkv
    rw [hty] at this
    injection this with h2
    exact h2.symm

theorem WF_values_hash (A : ThreadUnsafeSet) (hA : WF A) :
    ∀ v ∈ A.values, ∃ h, calcHash v = .ok h := by
  intro v hv
  rcases List.mem_map.mp hv with ⟨kv, hkv, rfl⟩
  exact ⟨kv.1, hA.2.1 kv hkv⟩

theorem Contains_single (B : ThreadUnsafeSet) (v : GoVal) (h : String)
    (hh : calcHash v = .ok h) : B.Contains [v] = B.hasKey h := by
  simp [ThreadUnsafeSet.Contains, hh]

theorem exists_filter_hash (A : ThreadUnsafeSet) (hA : HashCoherent A)
    (p : GoVal → Bool) (P : String → Bool)
    (hp : ∀ v h, calcHash v = .ok h → p v = P h) (k : String) :
    (∃ v ∈ A.values.filter p, calcHash v = .ok k) ↔
      (k ∈ keysOf A.dat ∧ P k = true) := by
  constructor
  · rintro ⟨v, hv, hvk⟩
    rw [List.mem_filter] at hv
    obtain ⟨hv, hpv⟩ := hv
    rcases List.mem_map.mp hv with ⟨kv, hkv, rfl⟩
    have hco := hA kv hkv
    have hk1 : kv.1 = k := by
      rw [hco] at hvk
      injection hvk
    refine ⟨?_, ?_⟩
    · rw [← hk1]
      exact List.mem_map_of_mem Prod.fst hkv
    · rw [← hp kv.2 k hvk]
      exact hpv
  · rintro ⟨hk, hP⟩
    rcases (mem_keysOf _ _).mp hk with ⟨v, hkv⟩
    have hco := hA (k, v) hkv
    refine ⟨v, ?_, hco⟩
    rw [List.mem_filter]
    refine ⟨List.mem_map_of_mem Prod.snd hkv, ?_⟩
    rw [hp v k hco]
    exact hP

theorem addAll_filter_spec (A : ThreadUnsafeSet) (hA : WF A)
    (p : GoVal → Bool) (P : String → Bool)
    (hp : ∀ v h, calcHash v = .ok h → p v = P h) :
    ∃ R, addAll newThreadUnsafeSet (A.values.filter p) = some R ∧
      ∀ k, R.hasKey k = true ↔ (A.hasKey k = true ∧ P k = true) := by
  obtain ⟨t, hvt, _⟩ := WF_type A hA
  have hl : ∀ v ∈ A.values.filter p, valType v = t ∧ ∃ h, calcHash v = .ok h :=
    fun v hv =>
      ⟨hvt v (List.mem_of_mem_filter hv),
       WF_values_hash A hA v (List.mem_of_mem_filter hv)⟩
  obtain ⟨R, hR, hkeys, _⟩ := addAll_spec _ newThreadUnsafeSet t hl (Or.inl rfl)
  refine ⟨R, hR, fun k => ?_⟩
  rw [hasKey_iff_keysOf, hkeys k, hasKey_iff_keysOf]
  have hempty : keysOf newThreadUnsafeSet.dat = [] := rfl
  rw [hempty]
  simp only [List.not_mem_nil, false_or]
  exact exists_filter_hash A hA.2.1 p P hp k

theorem Difference_spec (A B : ThreadUnsafeSet) (hA : WF A) :
    ∃ D, A.Difference B = some D ∧
      ∀ k, D.hasKey k = true ↔ (A.hasKey k = true ∧ B.hasKey k = false) := by
  obtain ⟨D, hD, hkeys⟩ := addAll_filter_spec A hA
    (fun v => !(B.Contains [v])) (fun h => !(B.hasKey h))
    (fun v h hh => by
      show (!(B.Contains [v])) = !(B.hasKey h)
      rw [Contains_single B v h hh])
  refine ⟨D, hD, fun k => ?_⟩
  rw [hkeys k]
  simp [Bool.not_eq_true']

theorem Intersect_spec (A B : ThreadUnsafeSet) (hA : WF A) (hB : WF B) :
    ∃ I, A.Intersect B = some I ∧
      ∀ k, I.hasKey k = true ↔ (A.hasKey k = true ∧ B.hasKey k = true) := by
  unfold ThreadUnsafeSet.Intersect
  split
  · obtain ⟨I, hI, hkeys⟩ := addAll_filter_spec A hA
      (fun v => B.Contains [v]) (fun h => B.hasKey h)
      (fun v h hh => by
        show B.Contains [v] = B.hasKey h
        exact Contains_single B v h hh)
    exact ⟨I, hI, hkeys⟩
  · obtain ⟨I, hI, hkeys⟩ := addAll_filter_spec B hB
      (fun v => A.Contains [v]) (fun h => A.hasKey h)
      (fun v h hh => by
        show A.Contains [v] = A.hasKey h
        exact Contains_single A v h hh)
    refine ⟨I, hI, fun k => ?_⟩
    rw [hkeys k]
    exact and_comm

theorem Pop_dat_sub (s : ThreadUnsafeSet) (kv : String × GoVal)
    (hkv : kv ∈ (s.Pop).1.dat) : kv ∈ s.dat := by
  unfold ThreadUnsafeSet.Pop at hkv
  split at hkv
  · exact hkv
  · exact List.mem_of_mem_filter hkv

theorem coherent_empty_dat (t : Option String) :
    HashCoherent ⟨[], t⟩ :=
  fun kv hkv => absurd hkv (List.not_mem_nil kv)

theorem Reachable_hashCoherent (s : ThreadUnsafeSet) (h : Reachable s) :
    HashCoherent s := by
  induction h with
  | empty => exact coherent_empty_dat none
  | add s v _ ih => exact Add_coherent s v ih
  | remove s v s' _ hrm ih =>
    unfold ThreadUnsafeSet.Remove at hrm
    rcases hcv : calcHash v with e | h2
    · rw [hcv] at hrm
      cases hrm
    · rw [hcv] at hrm
      injection hrm with hrm
      subst hrm
      intro kv hkv
      exact ih kv (List.mem_of_mem_filter hkv)
  | clear s _ _ => exact coherent_empty_dat none
  | pop s _ ih =>
    intro kv hkv
    exact ih kv (Pop_dat_sub s kv hkv)
  | clone s c _ hcl ih =>
    unfold ThreadUnsafeSet.Clone at hcl
    exact addAll_coherent _ _ _ (coherent_empty_dat s.typ) hcl
  | union a b c _ _ hu iha ihb =>
    unfold ThreadUnsafeSet.Union at hu
    rcases h1 : addAll newThreadUnsafeSet a.values with _ | u
    · rw [h1] at hu
      cases hu
    · rw [h1] at hu
      exact addAll_coherent _ _ _ (addAll_coherent _ _ _ (coherent_empty_dat none) h1) hu
  | inter a b c _ _ hi iha ihb =>
    unfold ThreadUnsafeSet.Intersect at hi
    split at hi <;> exact addAll_coherent _ _ _ (coherent_empty_dat none) hi
  | diff a b c _ _ hd iha ihb =>
    unfold ThreadUnsafeSet.Difference at hd
    exact addAll_coherent _ _ _ (coherent_empty_dat none) hd
  | symdiff a b c _ _ hs iha ihb =>
    unfold ThreadUnsafeSet.SymmetricDifference at hs
    rcases h1 : addAll newThreadUnsafeSet
        (a.values.filter fun v => !(b.Contains [v])) with _ | d
    · rw [h1] at hs
      cases hs
    · rw [h1] at hs
      exact addAll_coherent _ _ _ (addAll_coherent _ _ _ (coherent_empty_dat none) h1) hs
  | unmarshal s toks s' _ hun ih =>
    unfold ThreadUnsafeSet.UnmarshalJSON at hun
    exact addAll_coherent _ _ _ ih hun

/-- C9: in every set state reachable through the public operations, every
entry `(k, v)` of the backing mapping satisfies `calcHash v = ok k`, and
consequently `Contains(v)` is true for every stored element `v`. -/
theorem goset_reachable_key_value_coherent (s : ThreadUnsafeSet)
    (hr : Reachable s) :
    ∀ kv ∈ s.dat, calcHash kv.2 = Except.ok kv.1 ∧ s.Contains [kv.2] = true := by
  have hc := Reachable_hashCoherent s hr
  intro kv hkv
  refine ⟨hc kv hkv, ?_⟩
  rw [Contains_single s kv.2 kv.1 (hc kv hkv), hasKey_iff_keysOf]
  exact List.mem_map_of_mem Prod.fst hkv

/-- Witness for C9 at the reachable state obtained by `Add(1)` on a fresh
set: the stored pair is coherent and `Contains` finds the value. -/
theorem goset_reachable_key_value_coherent_witness :
    calcHash (GoVal.intV 1) = Except.ok "1" ∧
      (ThreadUnsafeSet.Add newThreadUnsafeSet (GoVal.intV 1)).1.Contains
        [GoVal.intV 1] = true :=
  goset_reachable_key_value_coherent
    (ThreadUnsafeSet.Add newThreadUnsafeSet (GoVal.intV 1)).1
    (Reachable.add newThreadUnsafeSet (GoVal.intV 1) Reachable.empty)
    ("1", GoVal.intV 1) (by decide)

/-- C5: `Contains` returns true iff every argument's hash key is present
in the backing mapping; in particular an argument whose key cannot be
computed makes the call return false.  `Contains` is a pure function of
the set state here, which embeds that the call neither aborts nor mutates
the receiver. -/
theorem goset_contains_spec (s : ThreadUnsafeSet) (vals : List GoVal) :
    s.Contains vals = true ↔
      ∀ v ∈ vals, ∃ h, calcHash v = Except.ok h ∧ s.hasKey h = true := by
  simp only [ThreadUnsafeSet.Contains, List.all_eq_true]
  constructor
  · intro H v hv
    have hm := H v hv
    rcases hcv : calcHash v with e | h
    · simp [hcv] at hm
    · simp only [hcv] at hm
      exact ⟨h, rfl, hm⟩
  · intro H v hv
    rcases H v hv with ⟨h, hcv, hk⟩
    simp [hcv, hk]

/-- Witness for C5: `Contains(1)` on the set `{1}` evaluates to true via
the specification. -/
theorem goset_contains_spec_witness :
    (⟨[("1", GoVal.intV 1)], some "int"⟩ : ThreadUnsafeSet).Contains
      [GoVal.intV 1] = true :=
  (goset_contains_spec ⟨[("1", GoVal.intV 1)], some "int"⟩ [GoVal.intV 1]).mpr
    (by
      intro v hv
      rw [List.mem_singleton] at hv
      subst hv
      exact ⟨"1", by decide, by decide⟩)

/-- C1: evaluation of `Equal` at a 2-element set A and a 3-element set B,
both reachable by `Add`s from fresh sets (first two conjuncts).  `Equal`
returns `true` although the cardinalities differ — the source's
cardinality pre-check is inverted (`if set.Size() != other.Size() {
return true }`), so `Equal` is NOT "same cardinality and every element of
A is in B"; the thread-safe wrapper delegates to the same code. -/
theorem goset_equal_inverted_cardinality_check :
    (addAll newThreadUnsafeSet [GoVal.intV 1, GoVal.intV 2] =
      some ⟨[("1", GoVal.intV 1), ("2", GoVal.intV 2)], some "int"⟩) ∧
    (addAll newThreadUnsafeSet [GoVal.intV 1, GoVal.intV 2, GoVal.intV 3] =
      some ⟨[("1", GoVal.intV 1), ("2", GoVal.intV 2), ("3", GoVal.intV 3)],
        some "int"⟩) ∧
    ThreadUnsafeSet.Equal
      ⟨[("1", GoVal.intV 1), ("2", GoVal.intV 2)], some "int"⟩
      ⟨[("1", GoVal.intV 1), ("2", GoVal.intV 2), ("3", GoVal.intV 3)],
        some "int"⟩ = true ∧
    ThreadSafeSet.Equal
      ⟨⟨[("1", GoVal.intV 1), ("2", GoVal.intV 2)], some "int"⟩⟩
      ⟨⟨[("1", GoVal.intV 1), ("2", GoVal.intV 2), ("3", GoVal.intV 3)],
        some "int"⟩⟩ = true ∧
    (⟨[("1", GoVal.intV 1), ("2", GoVal.intV 2)], some "int"⟩ :
      ThreadUnsafeSet).Cardinality ≠
    (⟨[("1", GoVal.intV 1), ("2", GoVal.intV 2), ("3", GoVal.intV 3)],
      some "int"⟩ : ThreadUnsafeSet).Cardinality := by
  decide

/-- C2: with A = {1,2} and B = {2,3} (key "3" is in exactly one of the
two), the unsynchronized `SymmetricDifference` produces {1,3}, but the
lock-guarded `ThreadSafeSet.SymmetricDifference` — whose body calls the
unsafe `Difference` — produces only {1}: key "3" is missing from its
result, so the membership characterization fails for the lock-guarded
variant. -/
theorem goset_threadsafe_symmetric_difference_is_difference :
    (ThreadUnsafeSet.SymmetricDifference
      ⟨[("1", GoVal.intV 1), ("2", GoVal.intV 2)], some "int"⟩
      ⟨[("2", GoVal.intV 2), ("3", GoVal.intV 3)], some "int"⟩ =
      some ⟨[("1", GoVal.intV 1), ("3", GoVal.intV 3)], some "int"⟩) ∧
    (ThreadSafeSet.SymmetricDifference
      ⟨⟨[("1", GoVal.intV 1), ("2", GoVal.intV 2)], some "int"⟩⟩
      ⟨⟨[("2", GoVal.intV 2), ("3", GoVal.intV 3)], some "int"⟩⟩ =
      some ⟨⟨[("1", GoVal.intV 1)], some "int"⟩⟩) ∧
    (⟨[("1", GoVal.intV 1), ("2", GoVal.intV 2)], some "int"⟩ :
      ThreadUnsafeSet).hasKey "3" = false ∧
    (⟨[("2", GoVal.intV 2), ("3", GoVal.intV 3)], some "int"⟩ :
      ThreadUnsafeSet).hasKey "3" = true ∧
    (⟨[("1", GoVal.intV 1)], some "int"⟩ : ThreadUnsafeSet).hasKey "3" =
      false := by
  decide

/-- C3: `uint8` is accepted by the hashability check, yet `calcHash`
reaches its supposedly unreachable fallback error branch on it (the inner
type switch has no `uint8` case), so `Add` of a `uint8` panics with the
hash error and `Remove` of a `uint8` panics as well. -/
theorem goset_uint8_hash_fallback_reached :
    isHashableObj (GoVal.uint8V 7) = true ∧
    calcHash (GoVal.uint8V 7) = Except.error
      "uint8 is not a hashable native object, but the ret of isNativeHashableObj seems be true" ∧
    (newThreadUnsafeSet.Add (GoVal.uint8V 7)).2 = AddOutcome.hashError
      "uint8 is not a hashable native object, but the ret of isNativeHashableObj seems be true" ∧
    ThreadUnsafeSet.Remove ⟨[], some "uint8"⟩ (GoVal.uint8V 7) = none := by
  decide

/-- C4: the set {1} (reached by `Add(1)` on a fresh set, first conjunct)
marshals to the JSON array [1], but unmarshaling that array into a fresh
empty set panics: the decoder's `UseNumber()` turns the numeral into a
`json.Number`, which is not a hashable type, so the `Add` inside
`UnmarshalJSON` panics — the round-trip does not yield a set at all. -/
theorem goset_json_roundtrip_panics_on_numbers :
    ((newThreadUnsafeSet.Add (GoVal.intV 1)).1 =
      ⟨[("1", GoVal.intV 1)], some "int"⟩) ∧
    ThreadUnsafeSet.MarshalJSON ⟨[("1", GoVal.intV 1)], some "int"⟩ =
      Except.ok [JsonTok.jnum "1"] ∧
    isHashableObj (GoVal.jsonNumberV "1") = false ∧
    ThreadUnsafeSet.UnmarshalJSON newThreadUnsafeSet [JsonTok.jnum "1"] =
      none := by
  decide

/-- C6: for well-formed operands, `Intersect(A,B)` holds an element/key
iff it is in both A and B, `Difference(A,B)` holds a key iff it is in A
and its key is absent from B, the union of `Difference(A,B)` and
`Intersect(A,B)` equals A as a key set, and `Difference(A,B)` is disjoint
from B. -/
theorem goset_intersect_difference_algebra (A B : ThreadUnsafeSet)
    (hA : WF A) (hB : WF B) :
    ∃ D I, A.Difference B = some D ∧ A.Intersect B = some I ∧
      (∀ k, I.hasKey k = true ↔ (A.hasKey k = true ∧ B.hasKey k = true)) ∧
      (∀ v, I.Contains [v] = true ↔
        (A.Contains [v] = true ∧ B.Contains [v] = true)) ∧
      (∀ k, D.hasKey k = true ↔ (A.hasKey k = true ∧ B.hasKey k = false)) ∧
      (∀ k, A.hasKey k = true ↔ (D.hasKey k = true ∨ I.hasKey k = true)) ∧
      (∀ k, ¬(D.hasKey k = true ∧ B.hasKey k = true)) := by
  obtain ⟨D, hD, hDk⟩ := Difference_spec A B hA
  obtain ⟨I, hI, hIk⟩ := Intersect_spec A B hA hB
  refine ⟨D, I, hD, hI, hIk, ?_, hDk, ?_, ?_⟩
  · intro v
    rcases hcv : calcHash v with e | h
    · simp [ThreadUnsafeSet.Contains, hcv]
    · rw [Contains_single I v h hcv, Contains_single A v h hcv,
        Contains_single B v h hcv]
      exact hIk h
  · intro k
    have hd := hDk k
    have hi := hIk k
    by_cases hb : B.hasKey k = true
    · constructor
      · intro ha
        exact Or.inr (hi.mpr ⟨ha, hb⟩)
      · rintro (hD2 | hI2)
        · exact (hd.mp hD2).1
        · exact (hi.mp hI2).1
    · rw [Bool.not_eq_true] at hb
      constructor
      · intro ha
        exact Or.inl (hd.mpr ⟨ha, hb⟩)
      · rintro (hD2 | hI2)
        · exact (hd.mp hD2).1
        · exact (hi.mp hI2).1
  · intro k
    rintro ⟨hD2, hB2⟩
    have hfalse := ((hDk k).mp hD2).2
    rw [hB2] at hfalse
    cases hfalse

/-- Witness for C6 at A = {1,2}, B = {2,3}. -/
theorem goset_intersect_difference_algebra_witness :
    WF ⟨[("1", GoVal.intV 1), ("2", GoVal.intV 2)], some "int"⟩ ∧
    WF ⟨[("2", GoVal.intV 2), ("3", GoVal.intV 3)], some "int"⟩ ∧
    (∃ D I,
      ThreadUnsafeSet.Difference
        ⟨[("1", GoVal.intV 1), ("2", GoVal.intV 2)], some "int"⟩
        ⟨[("2", GoVal.intV 2), ("3", GoVal.intV 3)], some "int"⟩ = some D ∧
      ThreadUnsafeSet.Intersect
        ⟨[("1", GoVal.intV 1), ("2", GoVal.intV 2)], some "int"⟩
        ⟨[("2", GoVal.intV 2), ("3", GoVal.intV 3)], some "int"⟩ = some I ∧
      (∀ k, I.hasKey k = true ↔
        ((⟨[("1", GoVal.intV 1), ("2", GoVal.intV 2)], some "int"⟩ :
          ThreadUnsafeSet).hasKey k = true ∧
         (⟨[("2", GoVal.intV 2), ("3", GoVal.intV 3)], some "int"⟩ :
          ThreadUnsafeSet).hasKey k = true)) ∧
      (∀ v, I.Contains [v] = true ↔
        ((⟨[("1", GoVal.intV 1), ("2", GoVal.intV 2)], some "int"⟩ :
          ThreadUnsafeSet).Contains [v] = true ∧
         (⟨[("2", GoVal.intV 2), ("3", GoVal.intV 3)], some "int"⟩ :
          ThreadUnsafeSet).Contains [v] = true)) ∧
      (∀ k, D.hasKey k = true ↔
        ((⟨[("1", GoVal.intV 1), ("2", GoVal.intV 2)], some "int"⟩ :
          ThreadUnsafeSet).hasKey k = true ∧
         (⟨[("2", GoVal.intV 2), ("3", GoVal.intV 3)], some "int"⟩ :
          ThreadUnsafeSet).hasKey k = false)) ∧
      (∀ k, (⟨[("1", GoVal.intV 1), ("2", GoVal.intV 2)], some "int"⟩ :
          ThreadUnsafeSet).hasKey k = true ↔
        (D.hasKey k = true ∨ I.hasKey k = true)) ∧
      (∀ k, ¬(D.hasKey k = true ∧
        (⟨[("2", GoVal.intV 2), ("3", GoVal.intV 3)], some "int"⟩ :
          ThreadUnsafeSet).hasKey k = true))) :=
  ⟨by decide, by decide,
    goset_intersect_difference_algebra
      ⟨[("1", GoVal.intV 1), ("2", GoVal.intV 2)], some "int"⟩
      ⟨[("2", GoVal.intV 2), ("3", GoVal.intV 3)], some "int"⟩
      (by decide) (by decide)⟩

/-- C7 counterexample: the set reached by `Add(1)` then `Remove(1)` is
empty, and the string "a" is hashable, yet `Add("a")` on that set panics
with a type conflict instead of returning true — the emptied set retains
its fixed element type, so "same type or S is empty" does not suffice. -/
theorem goset_add_empty_but_typed_panics :
    ((newThreadUnsafeSet.Add (GoVal.intV 1)).1.Remove (GoVal.intV 1) =
      some ⟨[], some "int"⟩) ∧
    isHashableObj (GoVal.strV "a") = true ∧
    (⟨[], some "int"⟩ : ThreadUnsafeSet).dat = [] ∧
    ((⟨[], some "int"⟩ : ThreadUnsafeSet).Add (GoVal.strV "a")).2 =
      AddOutcome.typeConflict := by
  decide

/-- C7 (amended): for every hashable element whose runtime type matches
the set's fixed type or where the set has no fixed type recorded yet,
`Add` returns true, and if the element's hash key is already present the
cardinality is unchanged (the entry is overwritten). -/
theorem goset_add_reports_true_and_idempotent (s : ThreadUnsafeSet)
    (v : GoVal) (h : String) (hh : calcHash v = Except.ok h)
    (ht : s.typ = none ∨ s.typ = some (valType v)) :
    (s.Add v).2 = AddOutcome.ok true ∧
      (s.hasKey h = true → (s.Add v).1.Cardinality = s.Cardinality) := by
  rw [Add_eq_ok s v h hh ht]
  refine ⟨rfl, fun hk => ?_⟩
  show (mapInsert h v s.dat).length = s.dat.length
  exact length_mapInsert_present h v s.dat hk

/-- Witness for C7 (amended): re-adding 1 to {1} reports true and leaves
the cardinality at 1. -/
theorem goset_add_reports_true_and_idempotent_witness :
    ((⟨[("1", GoVal.intV 1)], some "int"⟩ : ThreadUnsafeSet).Add
      (GoVal.intV 1)).2 = AddOutcome.ok true ∧
    ((⟨[("1", GoVal.intV 1)], some "int"⟩ : ThreadUnsafeSet).Add
      (GoVal.intV 1)).1.Cardinality = 1 := by
  have h := goset_add_reports_true_and_idempotent
    ⟨[("1", GoVal.intV 1)], some "int"⟩ (GoVal.intV 1) "1"
    (by decide) (by decide)
  exact ⟨h.1, by rw [h.2 (by decide)]; decide⟩

/-- C10: adding an unhashable element to a fresh (untyped, empty) set
panics on the hash error but records the element's type first, leaving an
empty set with a fixed type; a later `Add` of a hashable element of any
different type on that state panics with the type-conflict error and
leaves the state unchanged. -/
theorem goset_add_nonatomic_type_record (v w : GoVal) (e : String)
    (hv : calcHash v = Except.error e) (_hw : ∃ h, calcHash w = Except.ok h)
    (hne : valType w ≠ valType v) :
    newThreadUnsafeSet.Add v =
      (⟨[], some (valType v)⟩, AddOutcome.hashError e) ∧
    (⟨[], some (valType v)⟩ : ThreadUnsafeSet).Add w =
      (⟨[], some (valType v)⟩, AddOutcome.typeConflict) := by
  constructor
  · unfold ThreadUnsafeSet.Add
    simp [newThreadUnsafeSet, hv]
  · unfold ThreadUnsafeSet.Add
    have hcond : (⟨[], some (valType v)⟩ : ThreadUnsafeSet).typ ≠ none ∧
        (⟨[], some (valType v)⟩ : ThreadUnsafeSet).typ ≠ some (valType w) := by
      refine ⟨by simp, ?_⟩
      exact fun he => hne (Option.some.inj he).symm
    rw [if_pos hcond]

/-- Witness for C10: `Add(true)` on a fresh set (bool is unhashable)
records element type bool and panics; `Add(1)` afterwards panics with a
type conflict. -/
theorem goset_add_nonatomic_type_record_witness :
    newThreadUnsafeSet.Add (GoVal.boolV true) =
      (⟨[], some "bool"⟩, AddOutcome.hashError
        "obj is not a hashable object, can't calculate its hash") ∧
    (⟨[], some "bool"⟩ : ThreadUnsafeSet).Add (GoVal.intV 1) =
      (⟨[], some "bool"⟩, AddOutcome.typeConflict) :=
  goset_add_nonatomic_type_record (GoVal.boolV true) (GoVal.intV 1)
    "obj is not a hashable object, can't calculate its hash"
    (by decide) ⟨"1", by decide⟩ (by decide)

/-- C8: `Pop` on a non-empty well-formed set returns some stored element
with success, after which that element's hash key is absent and the
cardinality has decreased by exactly one; on the empty set it returns
nothing and leaves the set unchanged. -/
theorem goset_pop_spec (s : ThreadUnsafeSet) (hs : WF s) :
    (s.dat = [] → s.Pop = (s, none)) ∧
    (s.dat ≠ [] → ∃ s' v, s.Pop = (s', some v) ∧
      s.Contains [v] = true ∧ s'.Contains [v] = false ∧
      s'.Cardinality + 1 = s.Cardinality) := by
  constructor
  · intro hd
    simp [ThreadUnsafeSet.Pop, hd]
  · intro hd
    rcases hdat : s.dat with _ | ⟨⟨k, v⟩, rest⟩
    · exact absurd hdat hd
    · have hpop : s.Pop =
          ({ s with dat := s.dat.filter fun kv => kv.1 != k }, some v) := by
        unfold ThreadUnsafeSet.Pop
        rw [hdat]
      have hcoh : calcHash v = Except.ok k :=
        hs.2.1 (k, v) (by rw [hdat]; exact List.mem_cons_self _ _)
      have hk2 : k ∉ keysOf rest := by
        have hnd := hs.1
        rw [hdat] at hnd
        have hcons : keysOf ((k, v) :: rest) = k :: keysOf rest := rfl
        rw [hcons] at hnd
        exact (List.nodup_cons.mp hnd).1
      have hfilter : s.dat.filter (fun kv => kv.1 != k) = rest := by
        rw [hdat]
        rw [List.filter_cons]
        have hk : (((k, v) : String × GoVal).1 != k) = false := by simp
        rw [hk]
        simp only [Bool.false_eq_true, if_false]
        apply List.filter_eq_self.mpr
        intro kv hkv
        rw [bne_iff_ne]
        intro he
        exact hk2 (he ▸ List.mem_map_of_mem Prod.fst hkv)
      refine ⟨_, v, hpop, ?_, ?_, ?_⟩
      · rw [Contains_single s v k hcoh, hasKey_iff_keysOf, hdat]
        exact List.mem_cons_self _ _
      · rw [Contains_single _ v k hcoh]
        show (s.dat.filter fun kv => kv.1 != k).any (fun kv => kv.1 == k) = false
        rw [hfilter, List.any_eq_false]
        intro kv hkv
        rw [beq_iff_eq]
        intro he
        exact hk2 (he ▸ List.mem_map_of_mem Prod.fst hkv)
      · show (s.dat.filter fun kv => kv.1 != k).length + 1 = s.dat.length
        rw [hfilter, hdat]
        rfl

/-- Witness for C8: `Pop` on the well-formed singleton {1}. -/
theorem goset_pop_spec_witness :
    WF ⟨[("1", GoVal.intV 1)], some "int"⟩ ∧
    (∃ s' v,
      (⟨[("1", GoVal.intV 1)], some "int"⟩ : ThreadUnsafeSet).Pop =
        (s', some v) ∧
      (⟨[("1", GoVal.intV 1)], some "int"⟩ : ThreadUnsafeSet).Contains [v] =
        true ∧
      s'.Contains [v] = false ∧
      s'.Cardinality + 1 =
        (⟨[("1", GoVal.intV 1)], some "int"⟩ : ThreadUnsafeSet).Cardinality) :=
  ⟨by decide,
    (goset_pop_spec ⟨[("1", GoVal.intV 1)], some "int"⟩ (by decide)).2
      (by decide)⟩
